import Mathlib

/-!
Shallow embedding of the NURBS evaluation core of the engine repository
(`src/unnamed/part_004`, with constants and struct shapes from
`src/src/nurbs.h`).  C `float` arithmetic is modelled as exact arithmetic in
a linear ordered field: `ℚ` wherever the source only uses field operations
and comparisons (so concrete evaluations are decidable), and `ℝ` where the
source calls `sqrtf` / `cosf` / `sinf`.  C arrays (`float *knots`,
`Vector4 control_points[]`) are modelled as total functions from `ℕ`; the
source never reads outside the indices the theorems below mention.
-/

namespace Engine

/-- `#define EPSILON 1e-6` from `src/src/nurbs.h`. -/
def EPSILON {α : Type} [LinearOrderedField α] : α := 1 / 1000000

/-- `Vector3` from `src/src/nurbs.h`: `float x, y, z`. -/
structure Vector3 (α : Type) where
  x : α
  y : α
  z : α
  deriving DecidableEq

/-- `Vector4` from `src/src/nurbs.h`: homogeneous `float x, y, z, w`. -/
structure Vector4 (α : Type) where
  x : α
  y : α
  z : α
  w : α
  deriving DecidableEq

/-- `NURBSCurve` from `src/src/nurbs.h`: degree, control-point count, the
control points (the fixed-capacity C array is a total function here) and the
knot array. -/
structure NURBSCurve (α : Type) where
  degree : ℕ
  num_control_points : ℕ
  control_points : ℕ → Vector4 α
  knots : ℕ → α

/-- `nurbs_basis_function` (src/unnamed/part_004, lines 28-48): Cox-de Boor
recursion; a term whose knot-span denominator has magnitude not exceeding
`EPSILON` is dropped (the `fabs(...) > EPSILON` guards). -/
def nurbs_basis_function {α : Type} [LinearOrderedField α]
    (i degree : ℕ) (t : α) (knots : ℕ → α) : α :=
  match degree with
  | 0 => if knots i ≤ t ∧ t < knots (i + 1) then 1 else 0
  | p + 1 =>
      let left :=
        if |knots (i + (p + 1)) - knots i| > EPSILON then
          (t - knots i) / (knots (i + (p + 1)) - knots i) *
            nurbs_basis_function i p t knots
        else 0
      let right :=
        if |knots (i + (p + 1) + 1) - knots (i + 1)| > EPSILON then
          (knots (i + (p + 1) + 1) - t) / (knots (i + (p + 1) + 1) - knots (i + 1)) *
            nurbs_basis_function (i + 1) p t knots
        else 0
      left + right

section Basis

variable {α : Type} [LinearOrderedField α]

lemma nurbs_basis_function_zero (i : ℕ) (t : α) (knots : ℕ → α) :
    nurbs_basis_function i 0 t knots =
      if knots i ≤ t ∧ t < knots (i + 1) then 1 else 0 := rfl

lemma nurbs_basis_function_succ (i p : ℕ) (t : α) (knots : ℕ → α) :
    nurbs_basis_function i (p + 1) t knots =
      (if |knots (i + (p + 1)) - knots i| > EPSILON then
          (t - knots i) / (knots (i + (p + 1)) - knots i) *
            nurbs_basis_function i p t knots
        else 0) +
      (if |knots (i + (p + 1) + 1) - knots (i + 1)| > EPSILON then
          (knots (i + (p + 1) + 1) - t) / (knots (i + (p + 1) + 1) - knots (i + 1)) *
            nurbs_basis_function (i + 1) p t knots
        else 0) := rfl

end Basis

/-- `evaluate_nurbs_curve` (src/unnamed/part_004, lines 51-72): one
accumulation pass over the control points, then division by the accumulated
weight only when it exceeds `EPSILON`.  The loop is a left fold over
`0, 1, ..., num_control_points - 1`. -/
def evaluate_nurbs_curve {α : Type} [LinearOrderedField α]
    (curve : NURBSCurve α) (t : α) : Vector3 α :=
  let step : Vector3 α × α → ℕ → Vector3 α × α := fun acc i =>
    let basis := nurbs_basis_function i curve.degree t curve.knots
    let weight := (curve.control_points i).w * basis
    (⟨acc.1.x + (curve.control_points i).x * weight,
      acc.1.y + (curve.control_points i).y * weight,
      acc.1.z + (curve.control_points i).z * weight⟩,
     acc.2 + weight)
  let r := (List.range curve.num_control_points).foldl step (⟨0, 0, 0⟩, 0)
  if r.2 > EPSILON then ⟨r.1.x / r.2, r.1.y / r.2, r.1.z / r.2⟩ else r.1

section CurveSums

variable {α : Type} [LinearOrderedField α]

/-- The weight one control point contributes at parameter `t`:
`w_i · B_i(t)`. -/
def curve_term_weight (curve : NURBSCurve α) (t : α) (i : ℕ) : α :=
  (curve.control_points i).w * nurbs_basis_function i curve.degree t curve.knots

/-- The rational numerator `Σ w_i · B_i(t) · P_i` of the curve evaluator. -/
def curve_numerator (curve : NURBSCurve α) (t : α) : Vector3 α :=
  ⟨∑ i ∈ Finset.range curve.num_control_points,
      (curve.control_points i).x * curve_term_weight curve t i,
    ∑ i ∈ Finset.range curve.num_control_points,
      (curve.control_points i).y * curve_term_weight curve t i,
    ∑ i ∈ Finset.range curve.num_control_points,
      (curve.control_points i).z * curve_term_weight curve t i⟩

/-- The rational denominator `Σ w_i · B_i(t)` of the curve evaluator. -/
def curve_denominator (curve : NURBSCurve α) (t : α) : α :=
  ∑ i ∈ Finset.range curve.num_control_points, curve_term_weight curve t i

lemma evaluate_nurbs_curve_fold (curve : NURBSCurve α) (t : α) (n : ℕ) :
    (List.range n).foldl
        (fun (acc : Vector3 α × α) i =>
          let basis := nurbs_basis_function i curve.degree t curve.knots
          let weight := (curve.control_points i).w * basis
          (⟨acc.1.x + (curve.control_points i).x * weight,
            acc.1.y + (curve.control_points i).y * weight,
            acc.1.z + (curve.control_points i).z * weight⟩,
           acc.2 + weight)) (⟨0, 0, 0⟩, 0) =
      (⟨∑ i ∈ Finset.range n, (curve.control_points i).x * curve_term_weight curve t i,
        ∑ i ∈ Finset.range n, (curve.control_points i).y * curve_term_weight curve t i,
        ∑ i ∈ Finset.range n, (curve.control_points i).z * curve_term_weight curve t i⟩,
       ∑ i ∈ Finset.range n, curve_term_weight curve t i) := by
  induction n with
  | zero => simp
  | succ n ih =>
      rw [List.range_succ, List.foldl_append, ih]
      simp [curve_term_weight, Finset.sum_range_succ, mul_assoc]

/-- `evaluate_nurbs_curve` in closed form: the accumulated pair is the
numerator/denominator sum pair, and division happens only when the
denominator exceeds `EPSILON`. -/
lemma evaluate_nurbs_curve_eq (curve : NURBSCurve α) (t : α) :
    evaluate_nurbs_curve curve t =
      if curve_denominator curve t > EPSILON then
        ⟨(curve_numerator curve t).x / curve_denominator curve t,
         (curve_numerator curve t).y / curve_denominator curve t,
         (curve_numerator curve t).z / curve_denominator curve t⟩
      else curve_numerator curve t := by
  unfold evaluate_nurbs_curve
  dsimp only
  rw [evaluate_nurbs_curve_fold]
  rfl

end CurveSums

/-- The Cox-de Boor reference recursion exactly as the spec words it: a term
whose denominator's magnitude is *below* `1e-6` contributes exactly `0`;
otherwise the divided term is used.  (Spec §4.1.) -/
def cox_de_boor_spec {α : Type} [LinearOrderedField α]
    (i degree : ℕ) (t : α) (knots : ℕ → α) : α :=
  match degree with
  | 0 => if knots i ≤ t ∧ t < knots (i + 1) then 1 else 0
  | p + 1 =>
      (if |knots (i + (p + 1)) - knots i| < EPSILON then 0
       else (t - knots i) / (knots (i + (p + 1)) - knots i) *
         cox_de_boor_spec i p t knots) +
      (if |knots (i + (p + 1) + 1) - knots (i + 1)| < EPSILON then 0
       else (knots (i + (p + 1) + 1) - t) / (knots (i + (p + 1) + 1) - knots (i + 1)) *
         cox_de_boor_spec (i + 1) p t knots)

/-- The Cox-de Boor reference with the dropped-term condition widened from
"below `1e-6`" to "at or below `1e-6`": this is the convention the code
actually implements. -/
def cox_de_boor_le {α : Type} [LinearOrderedField α]
    (i degree : ℕ) (t : α) (knots : ℕ → α) : α :=
  match degree with
  | 0 => if knots i ≤ t ∧ t < knots (i + 1) then 1 else 0
  | p + 1 =>
      (if |knots (i + (p + 1)) - knots i| ≤ EPSILON then 0
       else (t - knots i) / (knots (i + (p + 1)) - knots i) *
         cox_de_boor_le i p t knots) +
      (if |knots (i + (p + 1) + 1) - knots (i + 1)| ≤ EPSILON then 0
       else (knots (i + (p + 1) + 1) - t) / (knots (i + (p + 1) + 1) - knots (i + 1)) *
         cox_de_boor_le (i + 1) p t knots)

/-- C1 (amended): `nurbs_basis_function` equals the Cox-de Boor reference
definition in which any term whose denominator's magnitude is *at or below*
`1e-6` contributes exactly `0` (the code guard `fabs(den) > EPSILON` drops a
term whose denominator magnitude equals `EPSILON` as well; the base case and
the recursive coefficients are as the claim states them). -/
theorem C1_basis_equals_collapsed_reference {α : Type} [LinearOrderedField α]
    (i degree : ℕ) (t : α) (knots : ℕ → α) :
    nurbs_basis_function i degree t knots = cox_de_boor_le i degree t knots := by
  induction degree generalizing i with
  | zero => rfl
  | succ p ih =>
      rw [nurbs_basis_function_succ]
      show _ = (if _ then (0 : α) else _) + (if _ then (0 : α) else _)
      simp only [gt_iff_lt, ← not_le, ite_not, ih]

/-- A knot vector with the span `knots[1] - knots[0]` of magnitude exactly
`1e-6`: `0, 1e-6, 1, 2, 2, 2, ...`. -/
def knots_eps : ℕ → ℚ := fun j =>
  if j = 0 then 0 else if j = 1 then 1 / 1000000 else if j = 2 then 1 else 2

/-- C1 (counterexample): at a knot span of width exactly `1e-6` the code
drops the term (`fabs(den) > EPSILON` is false) while the claim's reference,
which only drops terms with magnitude strictly below `1e-6`, divides by it:
at `i = 0`, `degree = 1`, `t = 5e-7` the code returns `0` and the claimed
reference returns `1/2`. -/
theorem C1_cex_exact_epsilon_span :
    nurbs_basis_function 0 1 ((1 : ℚ) / 2000000) knots_eps = 0 ∧
    cox_de_boor_spec 0 1 ((1 : ℚ) / 2000000) knots_eps = 1 / 2 ∧
    nurbs_basis_function 0 1 ((1 : ℚ) / 2000000) knots_eps ≠
      cox_de_boor_spec 0 1 ((1 : ℚ) / 2000000) knots_eps := by
  refine ⟨?_, ?_, ?_⟩ <;>
    norm_num [nurbs_basis_function, cox_de_boor_spec, knots_eps, EPSILON, abs_of_pos]

/-- The curve of the C3 counterexample: one control point `(2, 4, 6)` with
the tiny positive weight `5e-7`, degree `0`, knot vector `0, 1, 1, ...`. -/
def curve_tiny_weight : NURBSCurve ℚ :=
  { degree := 0
    num_control_points := 1
    control_points := fun _ => ⟨2, 4, 6, 1 / 2000000⟩
    knots := fun j => if j = 0 then 0 else 1 }

/-- C3 (counterexample): at `t = 0` this curve's accumulated denominator is
`5e-7`, of magnitude below `EPSILON`, yet `evaluate_nurbs_curve` does not
return the zero vector: the final `if (weight_sum > EPSILON)` guard merely
skips the division and the accumulated numerator `(1e-6, 2e-6, 3e-6)` is
returned unchanged. -/
theorem C3_cex_small_denominator_not_zero_vector :
    |curve_denominator curve_tiny_weight 0| < EPSILON ∧
    evaluate_nurbs_curve curve_tiny_weight (0 : ℚ) =
      ⟨1 / 1000000, 2 / 1000000, 3 / 1000000⟩ ∧
    evaluate_nurbs_curve curve_tiny_weight (0 : ℚ) ≠ ⟨0, 0, 0⟩ := by
  refine ⟨?_, ?_, ?_⟩ <;>
    norm_num [evaluate_nurbs_curve, curve_denominator, curve_term_weight,
      curve_tiny_weight, nurbs_basis_function, EPSILON, abs_of_pos,
      List.range_succ, Vector3.mk.injEq]

/-- C3 (amended): `evaluate_nurbs_curve` accumulates the numerator
`Σ w_i·B_i(t)·P_i` and the denominator `Σ w_i·B_i(t)` in a single pass over
all control points and divides componentwise whenever the denominator
*exceeds* `EPSILON` (a signed comparison, not a magnitude test); otherwise it
returns the accumulated numerator unchanged — which is the zero vector
exactly when the accumulated numerator sums vanish, and no division is
performed, so no NaN can arise. -/
theorem C3_curve_eval_single_pass (curve : NURBSCurve ℚ) (t : ℚ) :
    evaluate_nurbs_curve curve t =
      if curve_denominator curve t > EPSILON then
        ⟨(curve_numerator curve t).x / curve_denominator curve t,
         (curve_numerator curve t).y / curve_denominator curve t,
         (curve_numerator curve t).z / curve_denominator curve t⟩
      else curve_numerator curve t :=
  evaluate_nurbs_curve_eq curve t

section KnotLemmas

variable {α : Type} [LinearOrderedField α]

lemma EPSILON_pos : (0 : α) < EPSILON := by norm_num [EPSILON]

/-- A knot vector whose consecutive knots either coincide or are separated
by more than `EPSILON` (so no nonzero knot span is collapsed by the
`fabs(...) > EPSILON` guards). -/
def knot_gaps (knots : ℕ → α) : Prop :=
  ∀ j, knots (j + 1) = knots j ∨ knots j + EPSILON < knots (j + 1)

lemma knot_gaps_dichotomy {knots : ℕ → α} (hg : knot_gaps knots) :
    ∀ i j, i ≤ j → knots j = knots i ∨ knots i + EPSILON < knots j := by
  intro i j hij
  induction j, hij using Nat.le_induction with
  | base => exact Or.inl rfl
  | succ j hij ih =>
      rcases hg j with h | h
      · rw [h]; exact ih
      · rcases ih with h2 | h2
        · exact Or.inr (h2 ▸ h)
        · exact Or.inr (h2.trans (lt_of_le_of_lt (by linarith [EPSILON_pos (α := α)]) h))

/-- Support of the basis functions: `nurbs_basis_function i p` vanishes
outside `[knots i, knots (i+p+1))`. -/
lemma nurbs_basis_support {knots : ℕ → α} (hm : Monotone knots) :
    ∀ (p i : ℕ) (t : α), t < knots i ∨ knots (i + p + 1) ≤ t →
      nurbs_basis_function i p t knots = 0 := by
  intro p
  induction p with
  | zero =>
      intro i t h
      rw [nurbs_basis_function_zero, if_neg]
      rintro ⟨h1, h2⟩
      rcases h with h | h
      · exact absurd h1 (not_le.mpr h)
      · exact absurd h2 (not_lt.mpr h)
  | succ p ih =>
      intro i t h
      rw [nurbs_basis_function_succ]
      have hL : nurbs_basis_function i p t knots = 0 := by
        apply ih
        rcases h with h | h
        · exact Or.inl h
        · exact Or.inr (le_trans (hm (by omega)) h)
      have hR : nurbs_basis_function (i + 1) p t knots = 0 := by
        apply ih
        rcases h with h | h
        · exact Or.inl (lt_of_lt_of_le h (hm (Nat.le_succ i)))
        · refine Or.inr ?_
          have e : i + 1 + p + 1 = i + (p + 1) + 1 := by omega
          rw [e]; exact h
      simp [hL, hR]

/-- A basis function over a zero-width span is identically zero. -/
lemma nurbs_basis_zero_width {knots : ℕ → α} (hm : Monotone knots)
    (p i : ℕ) (t : α) (h : knots i = knots (i + p + 1)) :
    nurbs_basis_function i p t knots = 0 := by
  rcases lt_or_le t (knots i) with h1 | h1
  · exact nurbs_basis_support hm p i t (Or.inl h1)
  · exact nurbs_basis_support hm p i t (Or.inr (h ▸ h1))

/-- The left ("coefL") term of the degree `p+1` Cox-de Boor recursion, as
the code computes it. -/
def basis_left_term (knots : ℕ → α) (p : ℕ) (t : α) (i : ℕ) : α :=
  if |knots (i + (p + 1)) - knots i| > EPSILON then
    (t - knots i) / (knots (i + (p + 1)) - knots i) *
      nurbs_basis_function i p t knots
  else 0

/-- The right ("coefR") term of the degree `p+1` Cox-de Boor recursion, as
the code computes it. -/
def basis_right_term (knots : ℕ → α) (p : ℕ) (t : α) (i : ℕ) : α :=
  if |knots (i + (p + 1) + 1) - knots (i + 1)| > EPSILON then
    (knots (i + (p + 1) + 1) - t) / (knots (i + (p + 1) + 1) - knots (i + 1)) *
      nurbs_basis_function (i + 1) p t knots
  else 0

lemma nurbs_basis_succ_terms (knots : ℕ → α) (p i : ℕ) (t : α) :
    nurbs_basis_function i (p + 1) t knots =
      basis_left_term knots p t i + basis_right_term knots p t i := rfl

/-- Telescoping key: a right term of index `i` and the left term of index
`i + 1` share their denominator and their coefficients add to `1` (or the
shared basis factor vanishes). -/
lemma basis_left_add_right {knots : ℕ → α} (hm : Monotone knots)
    (hg : knot_gaps knots) (p i : ℕ) (t : α) :
    basis_left_term knots p t (i + 1) + basis_right_term knots p t i =
      nurbs_basis_function (i + 1) p t knots := by
  unfold basis_left_term basis_right_term
  have e : i + 1 + (p + 1) = i + (p + 1) + 1 := by omega
  rw [e]
  by_cases h : |knots (i + (p + 1) + 1) - knots (i + 1)| > EPSILON
  · rw [if_pos h, if_pos h, div_mul_eq_mul_div, div_mul_eq_mul_div, div_add_div_same,
      ← add_mul]
    have hnum : t - knots (i + 1) + (knots (i + (p + 1) + 1) - t) =
        knots (i + (p + 1) + 1) - knots (i + 1) := by ring
    have hne : knots (i + (p + 1) + 1) - knots (i + 1) ≠ 0 := by
      intro h0
      rw [h0, abs_zero] at h
      exact absurd h (not_lt.mpr (le_of_lt EPSILON_pos))
    rw [hnum, mul_comm, mul_div_assoc, div_self hne, mul_one]
  · rw [if_neg h, if_neg h, add_zero]
    have hmono := hm (show i + 1 ≤ i + (p + 1) + 1 by omega)
    have habs : knots (i + (p + 1) + 1) - knots (i + 1) ≤ EPSILON := by
      rw [not_lt] at h
      calc knots (i + (p + 1) + 1) - knots (i + 1)
          ≤ |knots (i + (p + 1) + 1) - knots (i + 1)| := le_abs_self _
        _ ≤ EPSILON := h
    have heq : knots (i + 1) = knots (i + (p + 1) + 1) := by
      rcases knot_gaps_dichotomy hg (i + 1) (i + (p + 1) + 1) (by omega) with h2 | h2
      · exact h2.symm
      · linarith
    exact (nurbs_basis_zero_width hm p (i + 1) t
      (by rw [heq]; congr 1; omega)).symm

/-- One telescoping step: summing the degree `p+1` recursion over
`[a, c+1)` leaves the degree `p` sum over `[a+1, c+1)` plus the two
boundary terms. -/
lemma sum_basis_succ {knots : ℕ → α} (hm : Monotone knots)
    (hg : knot_gaps knots) (p : ℕ) (t : α) (a : ℕ) :
    ∀ c, a ≤ c →
      ∑ i ∈ Finset.Ico a (c + 1), nurbs_basis_function i (p + 1) t knots =
        (∑ i ∈ Finset.Ico (a + 1) (c + 1), nurbs_basis_function i p t knots) +
          basis_left_term knots p t a + basis_right_term knots p t c := by
  intro c hac
  induction c, hac using Nat.le_induction with
  | base =>
      rw [Finset.sum_Ico_eq_sum_range]
      simp [nurbs_basis_succ_terms, add_assoc]
  | succ c hac ih =>
      rw [Finset.sum_Ico_succ_top (by omega), ih,
        Finset.sum_Ico_succ_top (by omega : a + 1 ≤ c + 1),
        nurbs_basis_succ_terms]
      have key := basis_left_add_right hm hg p c t
      linarith [key]

/-- For a clamped knot vector the two boundary terms of each telescoping
step vanish, so the degree `q` sums collapse down to the degree `0` sum. -/
lemma sum_basis_clamped_chain {knots : ℕ → α} (hm : Monotone knots)
    (hg : knot_gaps knots) (p N : ℕ) (t : α)
    (hcl : ∀ j ≤ p, knots j = knots p)
    (hcr : ∀ j, N ≤ j → knots j = knots N)
    (hpN : p < N) :
    ∀ q, q ≤ p →
      ∑ i ∈ Finset.Ico (p - q) N, nurbs_basis_function i q t knots =
        ∑ i ∈ Finset.Ico p N, nurbs_basis_function i 0 t knots := by
  intro q
  induction q with
  | zero => intro _; simp
  | succ q ih =>
      intro hq
      have hN : N - 1 + 1 = N := by omega
      have step := sum_basis_succ hm hg q t (p - (q + 1)) (N - 1) (by omega)
      rw [hN] at step
      have ha1 : p - (q + 1) + 1 = p - q := by omega
      rw [ha1] at step
      rw [step]
      have hL : basis_left_term knots q t (p - (q + 1)) = 0 := by
        have hzw : nurbs_basis_function (p - (q + 1)) q t knots = 0 := by
          apply nurbs_basis_zero_width hm
          have e : p - (q + 1) + q + 1 = p := by omega
          rw [e, hcl (p - (q + 1)) (by omega)]
        unfold basis_left_term
        rw [hzw, mul_zero]
        simp
      have hR : basis_right_term knots q t (N - 1) = 0 := by
        unfold basis_right_term
        rw [hN]
        have hzw : nurbs_basis_function N q t knots = 0 := by
          apply nurbs_basis_zero_width hm
          exact (hcr (N + q + 1) (by omega)).symm ▸ (hcr N le_rfl).symm
        rw [hzw, mul_zero]
        simp
      rw [hL, hR, add_zero, add_zero]
      exact ih (by omega)

/-- Degree `0` partition: for `knots p ≤ t < knots N` exactly one of the
half-open knot-span indicators over `[p, N)` fires. -/
lemma sum_basis_zero_eq_one {knots : ℕ → α} (hm : Monotone knots) (p N : ℕ)
    (hpN : p < N) (t : α) (h1 : knots p ≤ t) (h2 : t < knots N) :
    ∑ i ∈ Finset.Ico p N, nurbs_basis_function i 0 t knots = 1 := by
  have hi0 := Nat.findGreatest_le (P := fun i => knots i ≤ t) (N - 1)
  have hpi0 : p ≤ Nat.findGreatest (fun i => knots i ≤ t) (N - 1) :=
    Nat.le_findGreatest (by omega) h1
  have hPi0 : knots (Nat.findGreatest (fun i => knots i ≤ t) (N - 1)) ≤ t :=
    Nat.findGreatest_spec (P := fun i => knots i ≤ t) (m := p) (n := N - 1)
      (by omega) h1
  have hgr : ∀ k, Nat.findGreatest (fun i => knots i ≤ t) (N - 1) < k →
      k ≤ N - 1 → ¬ knots k ≤ t := fun k hk1 hk2 =>
    Nat.findGreatest_is_greatest hk1 hk2
  set i0 := Nat.findGreatest (fun i => knots i ≤ t) (N - 1) with hdef
  have hti0 : t < knots (i0 + 1) := by
    by_cases hc : i0 + 1 ≤ N - 1
    · by_contra hcon
      push_neg at hcon
      exact hgr (i0 + 1) (Nat.lt_succ_self i0) hc hcon
    · have e : i0 + 1 = N := by omega
      rw [e]; exact h2
  rw [Finset.sum_eq_single_of_mem i0 (Finset.mem_Ico.mpr ⟨hpi0, by omega⟩) ?zero,
    nurbs_basis_function_zero, if_pos ⟨hPi0, hti0⟩]
  case zero =>
    intro i hi hne
    rw [nurbs_basis_function_zero, if_neg]
    rintro ⟨ha, hb⟩
    rcases lt_or_gt_of_ne hne with hlt | hgt
    · exact absurd hb (not_lt.mpr (le_trans (hm (by omega)) hPi0))
    · have hiN : i < N := (Finset.mem_Ico.mp hi).2
      exact hgr i hgt (by omega) ha

end KnotLemmas

/-- C2 (amended): partition of unity.  For a non-decreasing clamped knot
vector (first and last knot each repeated `degree+1` times, modelled by a
monotone `ℕ → α` that is constant up to index `degree` and constant from
index `N` on) whose distinct consecutive knots are separated by more than
`EPSILON`, and a parameter strictly inside the domain
`[knots degree, knots N]`, the basis functions of indices `0..N-1` sum to
exactly `1`. -/
theorem C2_partition_of_unity {α : Type} [LinearOrderedField α]
    (knots : ℕ → α) (degree N : ℕ) (t : α)
    (hm : Monotone knots) (hg : knot_gaps knots)
    (hcl : ∀ j ≤ degree, knots j = knots degree)
    (hcr : ∀ j, N ≤ j → knots j = knots N)
    (hdN : degree < N) (ht1 : knots degree < t) (ht2 : t < knots N) :
    ∑ i ∈ Finset.range N, nurbs_basis_function i degree t knots = 1 := by
  rw [Finset.range_eq_Ico]
  have hchain := sum_basis_clamped_chain hm hg degree N t hcl hcr hdN degree le_rfl
  rw [Nat.sub_self] at hchain
  rw [hchain]
  exact sum_basis_zero_eq_one hm degree N hdN t (le_of_lt ht1) ht2

/-- The clamped degree-1 knot vector `0, 0, 1, 1, 1, ...`. -/
def knots_clamped01 : ℕ → ℚ := fun j => if j ≤ 1 then 0 else 1

lemma knots_clamped01_monotone : Monotone knots_clamped01 := by
  intro a b hab
  unfold knots_clamped01
  split_ifs with h1 h2 <;> norm_num
  omega

lemma knots_clamped01_gaps : knot_gaps knots_clamped01 := by
  intro j
  rcases j with _ | _ | n
  · exact Or.inl rfl
  · exact Or.inr (by norm_num [knots_clamped01, EPSILON])
  · exact Or.inl rfl

/-- C2 (witness): the partition of unity at the concrete clamped knot
vector `0, 0, 1, 1` with `degree = 1`, `N = 2`, `t = 1/2`. -/
theorem C2_partition_of_unity_witness :
    Monotone knots_clamped01 ∧ knot_gaps knots_clamped01 ∧
    ∑ i ∈ Finset.range 2, nurbs_basis_function i 1 ((1 : ℚ) / 2) knots_clamped01 = 1 :=
  ⟨knots_clamped01_monotone, knots_clamped01_gaps,
    C2_partition_of_unity knots_clamped01 1 2 ((1 : ℚ) / 2)
      knots_clamped01_monotone knots_clamped01_gaps
      (fun j hj => by interval_cases j <;> rfl)
      (fun j hj => by unfold knots_clamped01; simp [show ¬j ≤ 1 by omega])
      (by norm_num)
      (by norm_num [knots_clamped01])
      (by norm_num [knots_clamped01])⟩

/-- The knot vector `0, 0, 5e-7, 1, 1, 1, ...`: clamped and non-decreasing,
but with an interior span narrower than `EPSILON`. -/
def knots_narrow_span : ℕ → ℚ := fun j =>
  if j ≤ 1 then 0 else if j = 2 then 1 / 2000000 else 1

/-- C2 (counterexample): for the clamped non-decreasing knot vector
`0, 0, 5e-7, 1, 1` (degree `1`, `N = 3`) and `t = 2.5e-7` strictly inside
the domain `(0, 1)`, every basis function is collapsed to `0` by the
`EPSILON` guard, so the partition of unity fails: the sum is `0`, not `1`. -/
theorem C2_cex_sub_epsilon_span :
    (∀ j < 4, knots_narrow_span j ≤ knots_narrow_span (j + 1)) ∧
    knots_narrow_span 0 = knots_narrow_span 1 ∧
    knots_narrow_span 3 = knots_narrow_span 4 ∧
    knots_narrow_span 1 < 1 / 4000000 ∧ ((1 : ℚ) / 4000000) < knots_narrow_span 3 ∧
    ∑ i ∈ Finset.range 3,
      nurbs_basis_function i 1 ((1 : ℚ) / 4000000) knots_narrow_span = 0 := by
  refine ⟨?_, by norm_num [knots_narrow_span], by norm_num [knots_narrow_span],
    by norm_num [knots_narrow_span], by norm_num [knots_narrow_span], ?_⟩
  · intro j hj
    interval_cases j <;> norm_num [knots_narrow_span]
  · norm_num [Finset.sum_range_succ, nurbs_basis_function, knots_narrow_span,
      EPSILON, abs_of_pos]

section UpperEdge

variable {α : Type} [LinearOrderedField α]

/-- At or beyond the largest knot value every basis function vanishes: the
degree-0 interval `knots[i] ≤ t < knots[i+1]` is half open on the right. -/
lemma basis_zero_of_ge_max {knots : ℕ → α} {K : α} (hb : ∀ j, knots j ≤ K)
    {t : α} (ht : K ≤ t) :
    ∀ p i, nurbs_basis_function i p t knots = 0 := by
  intro p
  induction p with
  | zero =>
      intro i
      rw [nurbs_basis_function_zero, if_neg]
      rintro ⟨h1, h2⟩
      exact absurd h2 (not_lt.mpr (le_trans (hb (i + 1)) ht))
  | succ p ih =>
      intro i
      rw [nurbs_basis_function_succ, ih i, ih (i + 1)]
      simp

/-- When every basis value is zero, the curve evaluator's accumulators stay
zero, the division guard fails, and the zero vector is returned. -/
lemma evaluate_zero_of_basis_zero (curve : NURBSCurve α) (t : α)
    (hb : ∀ i, nurbs_basis_function i curve.degree t curve.knots = 0) :
    evaluate_nurbs_curve curve t = ⟨0, 0, 0⟩ := by
  rw [evaluate_nurbs_curve_eq]
  have hden : curve_denominator curve t = 0 := by
    unfold curve_denominator curve_term_weight
    simp [hb]
  have hnum : curve_numerator curve t = ⟨0, 0, 0⟩ := by
    unfold curve_numerator curve_term_weight
    simp [hb]
  rw [hden, hnum, if_neg (not_lt.mpr (le_of_lt EPSILON_pos))]

end UpperEdge

/-- C10: for every knot array bounded by `K`, every parameter `t ≥ K`, every
index and every degree, `nurbs_basis_function` returns exactly `0` (the
degree-0 span excludes its right endpoint), and consequently
`evaluate_nurbs_curve` at any such `t` — in particular at the upper domain
bound `knots[num_control_points]` of a clamped curve, where `K` is the
largest knot — returns exactly the zero vector. -/
theorem C10_upper_edge_collapses_to_zero {α : Type} [LinearOrderedField α]
    (curve : NURBSCurve α) (K t : α)
    (hb : ∀ j, curve.knots j ≤ K) (ht : K ≤ t) :
    (∀ i p, nurbs_basis_function i p t curve.knots = 0) ∧
    evaluate_nurbs_curve curve t = ⟨0, 0, 0⟩ :=
  ⟨fun i p => basis_zero_of_ge_max hb ht p i,
   evaluate_zero_of_basis_zero curve t (fun i => basis_zero_of_ge_max hb ht _ i)⟩

/-- A concrete clamped degree-1 curve on the knot vector `0, 0, 1, 1` with
control points `(1,2,3)` and `(4,5,6)`, both of weight `1`. -/
def curve_clamped : NURBSCurve ℚ :=
  { degree := 1
    num_control_points := 2
    control_points := fun i => if i = 0 then ⟨1, 2, 3, 1⟩ else ⟨4, 5, 6, 1⟩
    knots := knots_clamped01 }

lemma curve_clamped_knots_le_one : ∀ j, curve_clamped.knots j ≤ 1 := by
  intro j
  show knots_clamped01 j ≤ 1
  unfold knots_clamped01
  split <;> norm_num

/-- C10 (witness): the clamped curve `curve_clamped` has every knot at most
`1`, and at `t = 1` (its upper domain bound `knots[2]`) every basis function
vanishes and the evaluator returns the zero vector. -/
theorem C10_upper_edge_witness :
    (∀ j, curve_clamped.knots j ≤ 1) ∧
    ((∀ i p, nurbs_basis_function i p (1 : ℚ) curve_clamped.knots = 0) ∧
     evaluate_nurbs_curve curve_clamped (1 : ℚ) = ⟨0, 0, 0⟩) :=
  ⟨curve_clamped_knots_le_one,
   C10_upper_edge_collapses_to_zero curve_clamped 1 1 curve_clamped_knots_le_one
     le_rfl⟩

section LeftClamp

variable {α : Type} [LinearOrderedField α]

/-- At the lower domain bound `t = knots p` of a clamped knot vector (all
knots up to index `p` equal, and a real first span after them), the degree
`q ≤ p` basis functions form a Kronecker delta at index `p - q`. -/
lemma basis_at_left_clamp {knots : ℕ → α} (hm : Monotone knots) (p : ℕ)
    (hcl : ∀ j ≤ p, knots j = knots p)
    (hgap1 : knots p + EPSILON < knots (p + 1)) :
    ∀ q, q ≤ p → ∀ i, nurbs_basis_function i q (knots p) knots =
      if i = p - q then 1 else 0 := by
  have heps := EPSILON_pos (α := α)
  have hplt : knots p < knots (p + 1) := by linarith
  intro q
  induction q with
  | zero =>
      intro _ i
      rw [nurbs_basis_function_zero, Nat.sub_zero]
      rcases Nat.lt_trichotomy i p with hlt | heq | hgt
      · have hne : i ≠ p := by omega
        rw [if_neg hne, if_neg]
        rintro ⟨h1, h2⟩
        rw [hcl (i + 1) (by omega)] at h2
        exact lt_irrefl _ h2
      · subst heq
        rw [if_pos ⟨le_refl _, hplt⟩]
        rw [if_pos rfl]
      · have hne : i ≠ p := by omega
        rw [if_neg hne, if_neg]
        rintro ⟨h1, h2⟩
        have hle : knots (p + 1) ≤ knots i := hm (by omega)
        linarith
  | succ q ih =>
      intro hq i
      have hq2 : q ≤ p := by omega
      rw [nurbs_basis_succ_terms]
      by_cases hi : i = p - (q + 1)
      · subst hi
        have hBL : nurbs_basis_function (p - (q + 1)) q (knots p) knots = 0 := by
          rw [ih hq2 (p - (q + 1))]
          exact if_neg (by omega)
        have hL : basis_left_term knots q (knots p) (p - (q + 1)) = 0 := by
          unfold basis_left_term
          rw [hBL, mul_zero, ite_self]
        have hBR : nurbs_basis_function (p - (q + 1) + 1) q (knots p) knots = 1 := by
          have e2 : p - (q + 1) + 1 = p - q := by omega
          rw [e2, ih hq2 (p - q)]
          exact if_pos rfl
        have hR : basis_right_term knots q (knots p) (p - (q + 1)) = 1 := by
          unfold basis_right_term
          have e1 : p - (q + 1) + (q + 1) + 1 = p + 1 := by omega
          rw [e1, hBR, mul_one]
          have e2 : p - (q + 1) + 1 = p - q := by omega
          rw [e2, hcl (p - q) (by omega)]
          rw [if_pos (show |knots (p + 1) - knots p| > EPSILON from by
            rw [abs_of_pos (by linarith)]; linarith)]
          exact div_self (by linarith)
        rw [hL, hR, if_pos rfl]
        norm_num
      · have hBR : nurbs_basis_function (i + 1) q (knots p) knots = 0 := by
          rw [ih hq2 (i + 1)]
          exact if_neg (by omega)
        have hR : basis_right_term knots q (knots p) i = 0 := by
          unfold basis_right_term
          rw [hBR, mul_zero, ite_self]
        have hL : basis_left_term knots q (knots p) i = 0 := by
          by_cases hi2 : i = p - q
          · subst hi2
            unfold basis_left_term
            rw [hcl (p - q) (by omega), sub_self, zero_div, zero_mul, ite_self]
          · have hB : nurbs_basis_function i q (knots p) knots = 0 := by
              rw [ih hq2 i]
              exact if_neg hi2
            unfold basis_left_term
            rw [hB, mul_zero, ite_self]
        rw [hL, hR, if_neg hi]
        norm_num

end LeftClamp

/-- C4 (amended): for a curve on a clamped non-decreasing knot vector whose
first span after the clamp is wider than `EPSILON` and whose first control
point has weight above `EPSILON`, `evaluate_nurbs_curve` at the lower domain
bound `knots[degree]` interpolates the first control point's unweighted
position; at the upper domain bound `knots[num_control_points]`, however,
the half-open degree-0 spans make every basis function vanish and the
evaluator returns the zero vector, not the last control point. -/
theorem C4_clamped_boundary_interpolation {α : Type} [LinearOrderedField α]
    (curve : NURBSCurve α)
    (hm : Monotone curve.knots)
    (hdN : curve.degree < curve.num_control_points)
    (hcl : ∀ j ≤ curve.degree, curve.knots j = curve.knots curve.degree)
    (hcr : ∀ j, curve.num_control_points ≤ j →
      curve.knots j = curve.knots curve.num_control_points)
    (hgap1 : curve.knots curve.degree + EPSILON <
      curve.knots (curve.degree + 1))
    (hw : EPSILON < (curve.control_points 0).w) :
    evaluate_nurbs_curve curve (curve.knots curve.degree) =
      ⟨(curve.control_points 0).x, (curve.control_points 0).y,
        (curve.control_points 0).z⟩ ∧
    evaluate_nurbs_curve curve (curve.knots curve.num_control_points) =
      ⟨0, 0, 0⟩ := by
  constructor
  · have hdelta := basis_at_left_clamp hm curve.degree hcl hgap1
      curve.degree le_rfl
    simp only [Nat.sub_self] at hdelta
    have hterm : ∀ i, curve_term_weight curve (curve.knots curve.degree) i =
        if i = 0 then (curve.control_points 0).w else 0 := by
      intro i
      unfold curve_term_weight
      rw [hdelta i]
      by_cases h : i = 0
      · subst h; simp
      · simp [h]
    have hsum : ∀ f : ℕ → α,
        ∑ i ∈ Finset.range curve.num_control_points,
          f i * curve_term_weight curve (curve.knots curve.degree) i =
          f 0 * (curve.control_points 0).w := by
      intro f
      rw [Finset.sum_eq_single_of_mem 0
        (Finset.mem_range.mpr (show 0 < curve.num_control_points by omega))]
      · rw [hterm 0, if_pos rfl]
      · intro i hi hne
        rw [hterm i, if_neg hne, mul_zero]
    have hden : curve_denominator curve (curve.knots curve.degree) =
        (curve.control_points 0).w := by
      unfold curve_denominator
      have := hsum (fun _ => 1)
      simpa using this
    have hwne : (curve.control_points 0).w ≠ 0 := by linarith [EPSILON_pos (α := α)]
    rw [evaluate_nurbs_curve_eq, hden, if_pos hw]
    unfold curve_numerator
    rw [hsum (fun i => (curve.control_points i).x),
      hsum (fun i => (curve.control_points i).y),
      hsum (fun i => (curve.control_points i).z)]
    simp [mul_div_assoc, div_self hwne]
  · have hbound : ∀ j, curve.knots j ≤ curve.knots curve.num_control_points := by
      intro j
      rcases le_or_lt j curve.num_control_points with h | h
      · exact hm h
      · exact le_of_eq (hcr j (le_of_lt h))
    exact evaluate_zero_of_basis_zero curve _
      (fun i => basis_zero_of_ge_max hbound le_rfl _ i)

/-- C4 (witness): the boundary behaviour at the concrete clamped curve
`curve_clamped`: the evaluation at `knots[1] = 0` returns `(1,2,3)`, the
first control point, and the evaluation at `knots[2] = 1` returns the zero
vector. -/
theorem C4_clamped_boundary_witness :
    Monotone curve_clamped.knots ∧
    EPSILON < (curve_clamped.control_points 0).w ∧
    (evaluate_nurbs_curve curve_clamped
        (curve_clamped.knots curve_clamped.degree) =
      ⟨(curve_clamped.control_points 0).x, (curve_clamped.control_points 0).y,
        (curve_clamped.control_points 0).z⟩ ∧
     evaluate_nurbs_curve curve_clamped
        (curve_clamped.knots curve_clamped.num_control_points) = ⟨0, 0, 0⟩) :=
  ⟨knots_clamped01_monotone, by norm_num [curve_clamped, EPSILON],
   C4_clamped_boundary_interpolation curve_clamped knots_clamped01_monotone
     (by norm_num [curve_clamped])
     (fun j hj => by
       have hj1 : j ≤ 1 := hj
       show knots_clamped01 j = knots_clamped01 1
       interval_cases j <;> rfl)
     (fun j hj => by
       have hj2 : 2 ≤ j := hj
       show knots_clamped01 j = knots_clamped01 2
       unfold knots_clamped01
       simp [show ¬j ≤ 1 by omega])
     (by norm_num [curve_clamped, knots_clamped01, EPSILON])
     (by norm_num [curve_clamped, EPSILON])⟩

/-- C4 (counterexample): the upper-bound half of the claim fails on the
clamped curve `curve_clamped`: its upper domain bound is `knots[2] = 1`, the
last control point's unweighted position is `(4,5,6)`, yet
`evaluate_nurbs_curve` at `t = 1` returns the zero vector. -/
theorem C4_cex_upper_bound_not_interpolated :
    curve_clamped.knots 2 = 1 ∧
    (curve_clamped.control_points 1).x = 4 ∧
    (curve_clamped.control_points 1).y = 5 ∧
    (curve_clamped.control_points 1).z = 6 ∧
    evaluate_nurbs_curve curve_clamped (1 : ℚ) = ⟨0, 0, 0⟩ ∧
    evaluate_nurbs_curve curve_clamped (1 : ℚ) ≠ ⟨4, 5, 6⟩ := by
  have h0 : evaluate_nurbs_curve curve_clamped (1 : ℚ) = ⟨0, 0, 0⟩ :=
    evaluate_zero_of_basis_zero curve_clamped 1
      (fun i => basis_zero_of_ge_max curve_clamped_knots_le_one le_rfl _ i)
  refine ⟨rfl, rfl, rfl, rfl, h0, ?_⟩
  rw [h0]
  intro h
  exact absurd (congrArg Vector3.x h) (by norm_num)

/-! ## Vector operations (src/unnamed/part_004, lines 268-303) -/

section VectorOps

variable {α : Type} [LinearOrderedField α]

def vector3_add (a b : Vector3 α) : Vector3 α :=
  ⟨a.x + b.x, a.y + b.y, a.z + b.z⟩

def vector3_subtract (a b : Vector3 α) : Vector3 α :=
  ⟨a.x - b.x, a.y - b.y, a.z - b.z⟩

def vector3_multiply (v : Vector3 α) (scalar : α) : Vector3 α :=
  ⟨v.x * scalar, v.y * scalar, v.z * scalar⟩

def vector3_cross (a b : Vector3 α) : Vector3 α :=
  ⟨a.y * b.z - a.z * b.y,
   a.z * b.x - a.x * b.z,
   a.x * b.y - a.y * b.x⟩

def vector3_dot (a b : Vector3 α) : α :=
  a.x * b.x + a.y * b.y + a.z * b.z

end VectorOps

/-- `vector3_length`: `sqrtf(x*x + y*y + z*z)`; `sqrtf` is modelled by
`Real.sqrt`. -/
noncomputable def vector3_length (v : Vector3 ℝ) : ℝ :=
  Real.sqrt (v.x * v.x + v.y * v.y + v.z * v.z)

/-- `vector3_normalize`: scale by the reciprocal length when the length
exceeds `EPSILON`, otherwise return the default up vector `(0, 0, 1)`. -/
noncomputable def vector3_normalize (v : Vector3 ℝ) : Vector3 ℝ :=
  if vector3_length v > EPSILON then vector3_multiply v (1 / vector3_length v)
  else ⟨0, 0, 1⟩

lemma vector3_length_nonneg (v : Vector3 ℝ) : 0 ≤ vector3_length v :=
  Real.sqrt_nonneg _

lemma vector3_length_smul (v : Vector3 ℝ) (c : ℝ) (hc : 0 ≤ c) :
    vector3_length (vector3_multiply v c) = c * vector3_length v := by
  unfold vector3_length vector3_multiply
  dsimp only
  rw [show v.x * c * (v.x * c) + v.y * c * (v.y * c) + v.z * c * (v.z * c) =
    c ^ 2 * (v.x * v.x + v.y * v.y + v.z * v.z) from by ring]
  rw [Real.sqrt_mul (sq_nonneg c), Real.sqrt_sq_eq_abs, abs_of_nonneg hc]

/-- Every output of `vector3_normalize` is a unit vector: the normalised
branch has length `length · (1/length) = 1` and the fallback `(0,0,1)` is a
unit vector. -/
lemma vector3_length_normalize (v : Vector3 ℝ) :
    vector3_length (vector3_normalize v) = 1 := by
  unfold vector3_normalize
  by_cases h : vector3_length v > EPSILON
  · rw [if_pos h]
    have hpos : 0 < vector3_length v := lt_trans EPSILON_pos h
    rw [vector3_length_smul v (1 / vector3_length v)
      (div_nonneg zero_le_one (le_of_lt hpos))]
    exact one_div_mul_cancel (ne_of_gt hpos)
  · rw [if_neg h]
    unfold vector3_length
    norm_num

lemma vector3_normalize_ne_zero (v : Vector3 ℝ) :
    vector3_normalize v ≠ ⟨0, 0, 0⟩ := by
  intro h
  have h1 := vector3_length_normalize v
  rw [h, show vector3_length ⟨0, 0, 0⟩ = 0 from by
    unfold vector3_length; norm_num] at h1
  exact absurd h1 (by norm_num)

lemma vector3_normalize_small (v : Vector3 ℝ)
    (h : vector3_length v < EPSILON) : vector3_normalize v = ⟨0, 0, 1⟩ := by
  unfold vector3_normalize
  rw [if_neg (not_lt.mpr (le_of_lt h))]

/-- `NURBSSurface` from `src/src/nurbs.h`: per-direction degrees and
control-point counts, the control net (u-major) and the two knot arrays. -/
structure NURBSSurface where
  degree_u : ℕ
  degree_v : ℕ
  num_control_points_u : ℕ
  num_control_points_v : ℕ
  control_points : ℕ → ℕ → Vector4 ℝ
  knots_u : ℕ → ℝ
  knots_v : ℕ → ℝ
  num_knots_u : ℕ
  num_knots_v : ℕ

/-- `SurfacePoint` from `src/src/nurbs.h`. -/
structure SurfacePoint where
  position : Vector3 ℝ
  normal : Vector3 ℝ
  tangent_u : Vector3 ℝ
  tangent_v : Vector3 ℝ

/-- The accumulator state of the double loop in `evaluate_nurbs_surface`:
position, tangent and weight sums. -/
structure SurfaceAcc where
  pos : Vector3 ℝ
  wsum : ℝ
  du : Vector3 ℝ
  duw : ℝ
  dv : Vector3 ℝ
  dvw : ℝ

/-- The body of the double loop of `evaluate_nurbs_surface`
(src/unnamed/part_004, lines 85-120) at grid index `(i, j)`. -/
noncomputable def surface_accum_step (surface : NURBSSurface) (u v : ℝ)
    (acc : SurfaceAcc) (ij : ℕ × ℕ) : SurfaceAcc :=
  let i := ij.1
  let j := ij.2
  let basis_u := nurbs_basis_function i surface.degree_u u surface.knots_u
  let basis_v := nurbs_basis_function j surface.degree_v v surface.knots_v
  let basis_uv := basis_u * basis_v
  let cp := surface.control_points i j
  let weight := cp.w * basis_uv
  let acc1 : SurfaceAcc :=
    { acc with
      pos := ⟨acc.pos.x + cp.x * weight, acc.pos.y + cp.y * weight,
        acc.pos.z + cp.z * weight⟩
      wsum := acc.wsum + weight }
  let acc2 : SurfaceAcc :=
    if 0 < i then
      let du_basis := (basis_u -
        nurbs_basis_function (i - 1) surface.degree_u u surface.knots_u) * basis_v
      let du_weight := cp.w * du_basis
      { acc1 with
        du := ⟨acc1.du.x + cp.x * du_weight, acc1.du.y + cp.y * du_weight,
          acc1.du.z + cp.z * du_weight⟩
        duw := acc1.duw + du_weight }
    else acc1
  if 0 < j then
    let dv_basis := basis_u * (basis_v -
      nurbs_basis_function (j - 1) surface.degree_v v surface.knots_v)
    let dv_weight := cp.w * dv_basis
    { acc2 with
      dv := ⟨acc2.dv.x + cp.x * dv_weight, acc2.dv.y + cp.y * dv_weight,
        acc2.dv.z + cp.z * dv_weight⟩
      dvw := acc2.dvw + dv_weight }
  else acc2

/-- `evaluate_nurbs_surface` (src/unnamed/part_004, lines 75-147): the
double accumulation loop (row-major, `i` outer), the three `EPSILON`-guarded
normalisations, and the normal from the tangent cross product. -/
noncomputable def evaluate_nurbs_surface (surface : NURBSSurface)
    (u v : ℝ) : SurfacePoint :=
  let pairs := (List.range surface.num_control_points_u).flatMap fun i =>
    (List.range surface.num_control_points_v).map fun j => (i, j)
  let acc := pairs.foldl (surface_accum_step surface u v)
    ⟨⟨0, 0, 0⟩, 0, ⟨0, 0, 0⟩, 0, ⟨0, 0, 0⟩, 0⟩
  let position := if acc.wsum > EPSILON then
      ⟨acc.pos.x / acc.wsum, acc.pos.y / acc.wsum, acc.pos.z / acc.wsum⟩
    else acc.pos
  let du := if acc.duw > EPSILON then
      ⟨acc.du.x / acc.duw, acc.du.y / acc.duw, acc.du.z / acc.duw⟩
    else acc.du
  let dv := if acc.dvw > EPSILON then
      ⟨acc.dv.x / acc.dvw, acc.dv.y / acc.dvw, acc.dv.z / acc.dvw⟩
    else acc.dv
  { position := position
    tangent_u := du
    tangent_v := dv
    normal := vector3_normalize (vector3_cross du dv) }

/-- C9: every `SurfacePoint` produced by `evaluate_nurbs_surface` carries
`normal = normalize(cross(tangent_u, tangent_v))`; whenever that cross
product (indeed any vector) has length below `EPSILON`, `normalize` returns
the fixed canonical unit vector `(0,0,1)` instead of failing; and the
returned normal always has length exactly `1` and is never the zero
vector. -/
theorem C9_surface_normal_always_usable (surface : NURBSSurface) (u v : ℝ) :
    (evaluate_nurbs_surface surface u v).normal =
      vector3_normalize (vector3_cross
        (evaluate_nurbs_surface surface u v).tangent_u
        (evaluate_nurbs_surface surface u v).tangent_v) ∧
    (∀ w : Vector3 ℝ, vector3_length w < EPSILON →
      vector3_normalize w = ⟨0, 0, 1⟩) ∧
    vector3_length (evaluate_nurbs_surface surface u v).normal = 1 ∧
    (evaluate_nurbs_surface surface u v).normal ≠ ⟨0, 0, 0⟩ :=
  ⟨rfl, fun w hw => vector3_normalize_small w hw,
   vector3_length_normalize _, vector3_normalize_ne_zero _⟩

/-! ## Tessellation (src/unnamed/part_004, lines 150-214) -/

/-- The parameter at which grid column `i` of a `res`-column tessellation is
sampled: `(float)i / (res - 1)` (src/unnamed/part_004, lines 164-165). -/
noncomputable def tess_param (res : ℕ) (i : ℕ) : ℝ :=
  (i : ℝ) / ((res : ℝ) - 1)

/-- The vertex grid of `tessellate_nurbs_surface`, stored flat at index
`i * res_v + j` (src/unnamed/part_004, line 166): entry `idx` holds the
surface evaluated at the grid parameters of row `idx / res_v`, column
`idx % res_v`. -/
noncomputable def tessellate_points (surface : NURBSSurface)
    (res_u res_v : ℕ) : ℕ → SurfacePoint :=
  fun idx => evaluate_nurbs_surface surface
    (tess_param res_u (idx / res_v)) (tess_param res_v (idx % res_v))

/-- The triangle index buffer of `tessellate_nurbs_surface`
(src/unnamed/part_004, lines 170-186): for each quad, first triangle
`(base, base+res_v, base+1)`, second triangle
`(base+1, base+res_v, base+res_v+1)`, in loop order (`i` outer). -/
def tessellate_indices (res_u res_v : ℕ) : List ℕ :=
  (List.range (res_u - 1)).flatMap fun i =>
    (List.range (res_v - 1)).flatMap fun j =>
      [i * res_v + j, i * res_v + j + res_v, i * res_v + j + 1,
       i * res_v + j + 1, i * res_v + j + res_v, i * res_v + j + res_v + 1]

/-- `tess->num_triangles = (res_u - 1) * (res_v - 1) * 2`
(src/unnamed/part_004, line 158). -/
def num_triangles (res_u res_v : ℕ) : ℕ := (res_u - 1) * (res_v - 1) * 2

section FlatMapBlocks

variable {β : Type}

/-- Dropping `c * k` elements of a `flatMap` of constant-length-`c` blocks
lands exactly at block `k`. -/
lemma drop_flatMap_range' {f : ℕ → List β} {c : ℕ}
    (hlen : ∀ i, (f i).length = c) :
    ∀ (m a k : ℕ), k < m →
      List.drop (c * k) ((List.range' a m).flatMap f) =
        f (a + k) ++ (List.range' (a + k + 1) (m - k - 1)).flatMap f := by
  intro m
  induction m with
  | zero => intro a k hk; omega
  | succ m ih =>
      intro a k hk
      rw [List.range'_succ, List.flatMap_cons]
      cases k with
      | zero =>
          rw [Nat.mul_zero, List.drop_zero]
          norm_num
      | succ k =>
          have hc : c * (k + 1) = (f a).length + c * k := by rw [hlen a]; ring
          rw [hc, List.drop_append, ih (a + 1) k (by omega)]
          have e1 : a + 1 + k = a + (k + 1) := by omega
          have e3 : m - k - 1 = m + 1 - (k + 1) - 1 := by omega
          rw [e1, e3]

/-- Taking block `k` out of a `flatMap` over `List.range n` of
constant-length-`c` blocks. -/
lemma take_drop_flatMap_range {f : ℕ → List β} {c : ℕ}
    (hlen : ∀ i, (f i).length = c) (n k : ℕ) (hk : k < n) :
    List.take c (List.drop (c * k) ((List.range n).flatMap f)) = f k := by
  rw [List.range_eq_range', drop_flatMap_range' hlen n 0 k hk,
    List.take_left' (hlen (0 + k))]
  norm_num

end FlatMapBlocks

lemma tessellate_indices_inner_length (res_u res_v : ℕ) (i : ℕ) :
    ((List.range (res_v - 1)).flatMap fun j =>
      [i * res_v + j, i * res_v + j + res_v, i * res_v + j + 1,
       i * res_v + j + 1, i * res_v + j + res_v, i * res_v + j + res_v + 1]).length =
      6 * (res_v - 1) := by
  rw [List.length_flatMap]
  have : List.map (List.length ∘ fun j =>
      [i * res_v + j, i * res_v + j + res_v, i * res_v + j + 1,
       i * res_v + j + 1, i * res_v + j + res_v, i * res_v + j + res_v + 1])
      (List.range (res_v - 1)) = List.replicate (res_v - 1) 6 := by
    rw [show (List.replicate (res_v - 1) 6) =
      List.replicate (List.range (res_v - 1)).length 6 from by rw [List.length_range],
      ← List.map_const']
    rfl
  rw [this, List.sum_replicate, smul_eq_mul]
  ring

/-- C6 (amended): the tessellator indexes vertices row-major by `u`
(`index(i,j) = i*res_v + j`) and, for each interior quad `(i,j)`, emits
exactly the two triangles `(v0, v2, v1)` and `(v1, v2, v3)` in that vertex
order, where `v0 = index(i,j)`, `v1 = v0 + 1`, `v2 = index(i+1,j) = v0 +
res_v`, `v3 = v2 + 1` — i.e. the second vertex of the first triangle is
`v2`, not `v1`, and the claimed orders `(v0,v1,v2)`, `(v1,v3,v2)` are both
transposed. -/
theorem C6_quad_triangle_indices (res_u res_v i j : ℕ)
    (hru : 2 ≤ res_u) (hrv : 2 ≤ res_v)
    (hi : i < res_u - 1) (hj : j < res_v - 1) :
    List.take 6 (List.drop (6 * (i * (res_v - 1) + j))
        (tessellate_indices res_u res_v)) =
      [i * res_v + j, i * res_v + j + res_v, i * res_v + j + 1,
       i * res_v + j + 1, i * res_v + j + res_v, i * res_v + j + res_v + 1] := by
  unfold tessellate_indices
  have hlen := tessellate_indices_inner_length res_u res_v
  have hsplit : 6 * (i * (res_v - 1) + j) = 6 * (res_v - 1) * i + 6 * j := by ring
  rw [hsplit, ← List.drop_drop]
  rw [List.range_eq_range', drop_flatMap_range' hlen (res_u - 1) 0 i hi]
  have hdrop : List.drop (6 * j)
      (((List.range (res_v - 1)).flatMap fun j2 =>
        [(0 + i) * res_v + j2, (0 + i) * res_v + j2 + res_v, (0 + i) * res_v + j2 + 1,
         (0 + i) * res_v + j2 + 1, (0 + i) * res_v + j2 + res_v,
         (0 + i) * res_v + j2 + res_v + 1]) ++
        (List.range' (0 + i + 1) (res_u - 1 - i - 1)).flatMap fun i2 =>
          (List.range (res_v - 1)).flatMap fun j2 =>
            [i2 * res_v + j2, i2 * res_v + j2 + res_v, i2 * res_v + j2 + 1,
             i2 * res_v + j2 + 1, i2 * res_v + j2 + res_v, i2 * res_v + j2 + res_v + 1]) =
      (List.drop (6 * j) ((List.range (res_v - 1)).flatMap fun j2 =>
        [(0 + i) * res_v + j2, (0 + i) * res_v + j2 + res_v, (0 + i) * res_v + j2 + 1,
         (0 + i) * res_v + j2 + 1, (0 + i) * res_v + j2 + res_v,
         (0 + i) * res_v + j2 + res_v + 1])) ++ _ :=
    List.drop_append_of_le_length (by rw [hlen]; omega)
  rw [hdrop]
  rw [List.take_append_of_le_length]
  · have := take_drop_flatMap_range
      (f := fun j2 =>
        [(0 + i) * res_v + j2, (0 + i) * res_v + j2 + res_v, (0 + i) * res_v + j2 + 1,
         (0 + i) * res_v + j2 + 1, (0 + i) * res_v + j2 + res_v,
         (0 + i) * res_v + j2 + res_v + 1])
      (c := 6) (fun _ => rfl) (res_v - 1) j hj
    rw [this]
    norm_num
  · rw [List.length_drop, hlen]
    omega

/-- C6 (witness): the interior quad `(0,0)` of a `2 × 2` tessellation. -/
theorem C6_quad_triangle_indices_witness :
    (2 ≤ 2 ∧ 0 < 2 - 1) ∧
    List.take 6 (List.drop (6 * (0 * (2 - 1) + 0)) (tessellate_indices 2 2)) =
      [0 * 2 + 0, 0 * 2 + 0 + 2, 0 * 2 + 0 + 1,
       0 * 2 + 0 + 1, 0 * 2 + 0 + 2, 0 * 2 + 0 + 2 + 1] :=
  ⟨⟨le_refl 2, by norm_num⟩,
   C6_quad_triangle_indices 2 2 0 0 (le_refl 2) (le_refl 2)
     (by norm_num) (by norm_num)⟩

/-- C6 (counterexample): at resolution `2 × 2` the emitted index buffer is
`[0, 2, 1, 1, 2, 3]` — the quad's triangles are `(v0, v2, v1)` and
`(v1, v2, v3)` — and not `[0, 1, 2, 1, 3, 2]`, which the claimed orders
`(v0, v1, v2)` and `(v1, v3, v2)` would produce
(`v0 = 0, v1 = 1, v2 = 2, v3 = 3`). -/
theorem C6_cex_triangle_vertex_order :
    tessellate_indices 2 2 = [0, 2, 1, 1, 2, 3] ∧
    tessellate_indices 2 2 ≠ [0, 1, 2, 1, 3, 2] := by
  constructor <;> decide

/-- The parameter the claim says grid column `i` is sampled at: the clamped
domain lower bound `knots[degree]` plus `i` uniform steps of
`(knots[num_control_points] - knots[degree]) / (res - 1)` (spec §4.4 reads
"a uniform grid spanning the surface's clamped parameter domain"). -/
noncomputable def claimed_tess_param (knots : ℕ → ℝ) (degree ncp res i : ℕ) : ℝ :=
  knots degree + (i : ℝ) * ((knots ncp - knots degree) / ((res : ℝ) - 1))

/-- The clamped knot vector `2, 2, 3, 3` (domain `[2, 3]`), as a total
function. -/
noncomputable def knots_shifted : ℕ → ℝ := fun j => if j ≤ 1 then 2 else 3

/-- A degree-(1,1) surface over `knots_shifted` in both directions: a unit
square of corners `(0,0,0) ... (1,0,1)` whose clamped parameter domain is
`[2,3] × [2,3]`, not `[0,1] × [0,1]`. -/
noncomputable def surface_shifted : NURBSSurface :=
  { degree_u := 1
    degree_v := 1
    num_control_points_u := 2
    num_control_points_v := 2
    control_points := fun i j => ⟨(i : ℝ), 0, (j : ℝ), 1⟩
    knots_u := knots_shifted
    knots_v := knots_shifted
    num_knots_u := 4
    num_knots_v := 4 }

/-- C7 (amended): the tessellator samples `evaluate_nurbs_surface` on the
fixed uniform unit grid `u = i/(res_u-1)`, `v = j/(res_v-1)`: grid point
`(i,j)` (stored flat at `i*res_v + j`) is evaluated at those parameters,
whose first and last columns lie at `0` and `1` — the grid spans the
clamped knot domain `[knots[degree], knots[num_control_points]]` only when
that domain is `[0,1]`. -/
theorem C7_tessellation_unit_grid (surface : NURBSSurface)
    (res_u res_v i j : ℕ) (hru : 2 ≤ res_u) (hrv : 2 ≤ res_v) (hj : j < res_v) :
    tessellate_points surface res_u res_v (i * res_v + j) =
      evaluate_nurbs_surface surface
        ((i : ℝ) / ((res_u : ℝ) - 1)) ((j : ℝ) / ((res_v : ℝ) - 1)) ∧
    tess_param res_u 0 = 0 ∧ tess_param res_u (res_u - 1) = 1 := by
  refine ⟨?_, ?_, ?_⟩
  · unfold tessellate_points tess_param
    have hdiv : (i * res_v + j) / res_v = i := by
      rw [add_comm, mul_comm, Nat.add_mul_div_left _ _ (show 0 < res_v by omega),
        Nat.div_eq_of_lt hj, zero_add]
    have hmod : (i * res_v + j) % res_v = j := by
      rw [add_comm, Nat.add_mul_mod_self_right]
      exact Nat.mod_eq_of_lt hj
    rw [hdiv, hmod]
  · unfold tess_param
    norm_num
  · unfold tess_param
    rw [Nat.cast_sub (by omega), Nat.cast_one]
    rw [div_self]
    have h2 : (2 : ℝ) ≤ (res_u : ℝ) := by exact_mod_cast hru
    intro h0
    have h3 : (res_u : ℝ) = 1 := by linarith
    linarith

/-- C7 (witness): the amended sampling law applied to `surface_shifted` at
resolution `3 × 3`, grid point `(1,1)`. -/
theorem C7_tessellation_unit_grid_witness :
    ((2 : ℕ) ≤ 3 ∧ (1 : ℕ) < 3) ∧
    (tessellate_points surface_shifted 3 3 (1 * 3 + 1) =
      evaluate_nurbs_surface surface_shifted
        ((1 : ℝ) / ((3 : ℝ) - 1)) ((1 : ℝ) / ((3 : ℝ) - 1)) ∧
     tess_param 3 0 = 0 ∧ tess_param 3 (3 - 1) = 1) :=
  ⟨⟨by norm_num, by norm_num⟩,
   by
     have h := C7_tessellation_unit_grid surface_shifted 3 3 1 1
       (by norm_num) (by norm_num) (by norm_num)
     push_cast at h ⊢
     exact h⟩

/-- C7 (counterexample): for the clamped surface `surface_shifted` (knot
domain `[2,3]` in both directions, `degree = 1`, `num_control_points = 2`)
at resolution `3`, grid column `1` is sampled at the code's parameter
`1/(3-1) = 1/2`, while the claim's formula
`knots[degree] + 1·(knots[2] - knots[1])/(3-1)` gives `5/2`: the sampled
parameter is not the claimed one. -/
theorem C7_cex_grid_ignores_knot_domain :
    tess_param 3 1 = 1 / 2 ∧
    claimed_tess_param surface_shifted.knots_u surface_shifted.degree_u
      surface_shifted.num_control_points_u 3 1 = 5 / 2 ∧
    tess_param 3 1 ≠
      claimed_tess_param surface_shifted.knots_u surface_shifted.degree_u
        surface_shifted.num_control_points_u 3 1 := by
  have h1 : tess_param 3 1 = 1 / 2 := by
    unfold tess_param
    norm_num
  have h2 : claimed_tess_param surface_shifted.knots_u surface_shifted.degree_u
      surface_shifted.num_control_points_u 3 1 = 5 / 2 := by
    show claimed_tess_param knots_shifted 1 2 3 1 = 5 / 2
    unfold claimed_tess_param knots_shifted
    norm_num
  refine ⟨h1, h2, ?_⟩
  rw [h1, h2]
  norm_num

/-! ## Primitive factory (src/unnamed/part_004, lines 331-452) -/

/-- `create_nurbs_sphere` (lines 331-366): degree `(2,2)`, a `7 × 5` net of
points sampled on the sphere with `cosf`/`sinf` (modelled by
`Real.cos`/`Real.sin`), every weight `1.0f`, and uniform knot vectors
`i / (num_knots - 1)`. -/
noncomputable def create_nurbs_sphere (radius : ℝ) : NURBSSurface :=
  { degree_u := 2
    degree_v := 2
    num_control_points_u := 7
    num_control_points_v := 5
    control_points := fun i j =>
      let u := (i : ℝ) / (7 - 1) * Real.pi
      let v := (j : ℝ) / (5 - 1) * (2 * Real.pi)
      ⟨radius * Real.sin u * Real.cos v, radius * Real.cos u,
       radius * Real.sin u * Real.sin v, 1⟩
    knots_u := fun i => (i : ℝ) / (10 - 1)
    knots_v := fun i => (i : ℝ) / (8 - 1)
    num_knots_u := 10
    num_knots_v := 8 }

/-- `create_nurbs_cylinder` (lines 368-411): degree `(2,1)`, `9 × 2`
control points, rational circle weights `1` at even `i` and `1/sqrt(2)` at
odd `i`, uniform `u` knots and clamped `v` knots `0, 0, 1, 1`. -/
noncomputable def create_nurbs_cylinder (radius height : ℝ) : NURBSSurface :=
  { degree_u := 2
    degree_v := 1
    num_control_points_u := 9
    num_control_points_v := 2
    control_points := fun i j =>
      let angle := (i : ℝ) / (9 - 1) * (2 * Real.pi)
      let weight : ℝ := if i % 2 = 0 then 1 else 1 / Real.sqrt 2
      ⟨radius * Real.cos angle,
       if j = 0 then -height / 2 else height / 2,
       radius * Real.sin angle, weight⟩
    knots_u := fun i => (i : ℝ) / (12 - 1)
    knots_v := fun i => if i ≤ 1 then 0 else 1
    num_knots_u := 12
    num_knots_v := 4 }

/-- `create_nurbs_torus` (lines 413-452): degree `(2,2)`, `9 × 9` control
points with weight `u_weight * v_weight`, each factor `1` at even index and
`1/sqrt(2)` at odd index, and uniform knot vectors. -/
noncomputable def create_nurbs_torus (major_radius minor_radius : ℝ) : NURBSSurface :=
  { degree_u := 2
    degree_v := 2
    num_control_points_u := 9
    num_control_points_v := 9
    control_points := fun i j =>
      let u_angle := (i : ℝ) / (9 - 1) * (2 * Real.pi)
      let u_weight : ℝ := if i % 2 = 0 then 1 else 1 / Real.sqrt 2
      let v_angle := (j : ℝ) / (9 - 1) * (2 * Real.pi)
      let v_weight : ℝ := if j % 2 = 0 then 1 else 1 / Real.sqrt 2
      ⟨(major_radius + minor_radius * Real.cos v_angle) * Real.cos u_angle,
       minor_radius * Real.sin v_angle,
       (major_radius + minor_radius * Real.cos v_angle) * Real.sin u_angle,
       u_weight * v_weight⟩
    knots_u := fun i => (i : ℝ) / (12 - 1)
    knots_v := fun i => (i : ℝ) / (12 - 1)
    num_knots_u := 12
    num_knots_v := 12 }

/-- C8 (amended): for every positive radius/height, `create_nurbs_cylinder`
assigns circular-direction weight exactly `1/sqrt(2)` at odd indices and `1`
at even indices, and `create_nurbs_torus` assigns the product of two such
per-direction factors; `create_nurbs_sphere`, however, assigns weight `1` to
every control point — it does not use the rational `1/sqrt(2)`
weighting. -/
theorem C8_primitive_factory_weights (radius height major minor : ℝ)
    (hr : 0 < radius) (hh : 0 < height) (hM : 0 < major) (hm : 0 < minor) :
    (∀ i j, ((create_nurbs_cylinder radius height).control_points i j).w =
      if i % 2 = 0 then 1 else 1 / Real.sqrt 2) ∧
    (∀ i j, ((create_nurbs_torus major minor).control_points i j).w =
      (if i % 2 = 0 then 1 else 1 / Real.sqrt 2) *
        (if j % 2 = 0 then 1 else 1 / Real.sqrt 2)) ∧
    (∀ i j, ((create_nurbs_sphere radius).control_points i j).w = 1) :=
  ⟨fun i j => rfl, fun i j => rfl, fun i j => rfl⟩

/-- C8 (witness): the weight pattern at concrete positive dimensions
`radius = height = major = minor = 1`, read at the control points `(1,0)`
(odd circular index, weight `1/sqrt(2)`) and `(0,0)` (even index, weight
`1`). -/
theorem C8_primitive_factory_weights_witness :
    ((0 : ℝ) < 1) ∧
    ((create_nurbs_cylinder 1 1).control_points 1 0).w = 1 / Real.sqrt 2 ∧
    ((create_nurbs_cylinder 1 1).control_points 0 0).w = 1 ∧
    ((create_nurbs_torus 1 1).control_points 1 1).w =
      1 / Real.sqrt 2 * (1 / Real.sqrt 2) := by
  have h := C8_primitive_factory_weights 1 1 1 1 (by norm_num) (by norm_num)
    (by norm_num) (by norm_num)
  refine ⟨by norm_num, ?_, ?_, ?_⟩
  · rw [h.1 1 0]; norm_num
  · rw [h.1 0 0]; norm_num
  · rw [h.2.1 1 1]; norm_num

/-- C8 (counterexample): `create_nurbs_sphere` does not weight its
circular-direction control points with `1/sqrt(2)` at odd indices: at
`radius = 1` the control point `(0, 1)` (and likewise `(1, 0)`) has weight
exactly `1`, and `1 ≠ 1/sqrt(2)`. -/
theorem C8_cex_sphere_weights_all_one :
    ((create_nurbs_sphere 1).control_points 0 1).w = 1 ∧
    ((create_nurbs_sphere 1).control_points 1 0).w = 1 ∧
    (1 : ℝ) ≠ 1 / Real.sqrt 2 := by
  refine ⟨rfl, rfl, ?_⟩
  have hlt : (1 : ℝ) < Real.sqrt 2 := by
    rw [show (1 : ℝ) = Real.sqrt 1 from (Real.sqrt_one).symm]
    exact Real.sqrt_lt_sqrt (by norm_num) (by norm_num)
  have hpos : (0 : ℝ) < Real.sqrt 2 := by linarith
  intro h
  rw [eq_div_iff (ne_of_gt hpos), one_mul] at h
  linarith

/-! ## Ray-surface intersection (src/unnamed/part_004, lines 217-266) -/

/-- `CollisionResult` from `src/src/nurbs.h`: hit flag, nearest distance,
hit point and triangle normal. -/
structure CollisionResult where
  hit : Bool
  distance : ℝ
  point : Vector3 ℝ
  normal : Vector3 ℝ

/-- A triangle as three vertex positions. -/
def Triangle3 : Type := Vector3 ℝ × Vector3 ℝ × Vector3 ℝ

/-- The Möller-Trumbore acceptance test of the loop body, as a partial
function: `none` on the parallel skip (`|a| < EPSILON`) and on the three
barycentric rejections, `some t` when the ray parameter passes
`t > EPSILON`. -/
noncomputable def mt_accepted_distance (ray_origin ray_direction : Vector3 ℝ)
    (tri : Triangle3) : Option ℝ :=
  let v0 := tri.1
  let v1 := tri.2.1
  let v2 := tri.2.2
  let edge1 := vector3_subtract v1 v0
  let edge2 := vector3_subtract v2 v0
  let h := vector3_cross ray_direction edge2
  let a := vector3_dot edge1 h
  if |a| < EPSILON then none
  else
    let f := 1 / a
    let s := vector3_subtract ray_origin v0
    let u := f * vector3_dot s h
    if u < 0 ∨ u > 1 then none
    else
      let q := vector3_cross s edge1
      let v := f * vector3_dot ray_direction q
      if v < 0 ∨ u + v > 1 then none
      else
        let t := f * vector3_dot edge2 q
        if t > EPSILON then some t else none

/-- The record the loop writes when it accepts a hit at distance `t` on
triangle `tri` (src/unnamed/part_004, lines 257-260). -/
noncomputable def mt_hit_record (ray_origin ray_direction : Vector3 ℝ)
    (tri : Triangle3) (t : ℝ) : CollisionResult :=
  { hit := true
    distance := t
    point := vector3_add ray_origin (vector3_multiply ray_direction t)
    normal := vector3_normalize (vector3_cross
      (vector3_subtract tri.2.1 tri.1) (vector3_subtract tri.2.2 tri.1)) }

/-- The loop body of `ray_nurbs_surface_intersection` (lines 226-262).  The
C code initialises `result.distance` to `INFINITY`; every accepted `t` is
finite, so `t < INFINITY` holds exactly while no hit is recorded yet, which
this model expresses as the disjunct `res.hit = false`. -/
noncomputable def ray_triangle_step (ray_origin ray_direction : Vector3 ℝ)
    (res : CollisionResult) (tri : Triangle3) : CollisionResult :=
  let v0 := tri.1
  let v1 := tri.2.1
  let v2 := tri.2.2
  let edge1 := vector3_subtract v1 v0
  let edge2 := vector3_subtract v2 v0
  let h := vector3_cross ray_direction edge2
  let a := vector3_dot edge1 h
  if |a| < EPSILON then res
  else
    let f := 1 / a
    let s := vector3_subtract ray_origin v0
    let u := f * vector3_dot s h
    if u < 0 ∨ u > 1 then res
    else
      let q := vector3_cross s edge1
      let v := f * vector3_dot ray_direction q
      if v < 0 ∨ u + v > 1 then res
      else
        let t := f * vector3_dot edge2 q
        if t > EPSILON ∧ (res.hit = false ∨ t < res.distance) then
          { hit := true
            distance := t
            point := vector3_add ray_origin (vector3_multiply ray_direction t)
            normal := vector3_normalize (vector3_cross edge1 edge2) }
        else res

/-- `result = {0}` with `result.hit = 0` (`result.distance = INFINITY` is
modelled through the hit flag, see `ray_triangle_step`). -/
def collision_init : CollisionResult :=
  { hit := false, distance := 0, point := ⟨0, 0, 0⟩, normal := ⟨0, 0, 0⟩ }

/-- Triangle `k` of the collision tessellation: vertex positions fetched
through `tess->indices[k*3 .. k*3+2]` (lines 227-233). -/
noncomputable def surface_triangle (surface : NURBSSurface) (res_u res_v : ℕ)
    (k : ℕ) : Triangle3 :=
  ((tessellate_points surface res_u res_v
      ((tessellate_indices res_u res_v).getD (k * 3) 0)).position,
   (tessellate_points surface res_u res_v
      ((tessellate_indices res_u res_v).getD (k * 3 + 1) 0)).position,
   (tessellate_points surface res_u res_v
      ((tessellate_indices res_u res_v).getD (k * 3 + 2) 0)).position)

/-- The triangle list the collision loop enumerates, in loop order:
the surface is tessellated at the fixed resolution `50 × 50`
(src/unnamed/part_004, line 223). -/
noncomputable def collision_triangles (surface : NURBSSurface) : List Triangle3 :=
  (List.range (num_triangles 50 50)).map (surface_triangle surface 50 50)

/-- `ray_nurbs_surface_intersection` (lines 217-266): fold the
Möller-Trumbore loop body over the `50 × 50` tessellation's triangles. -/
noncomputable def ray_nurbs_surface_intersection
    (ray_origin ray_direction : Vector3 ℝ) (surface : NURBSSurface) :
    CollisionResult :=
  (collision_triangles surface).foldl
    (ray_triangle_step ray_origin ray_direction) collision_init

/-- The accepted Möller-Trumbore distances of a triangle list, in
enumeration order. -/
noncomputable def accepted_distances (ray_origin ray_direction : Vector3 ℝ)
    (tris : List Triangle3) : List ℝ :=
  tris.filterMap (mt_accepted_distance ray_origin ray_direction)

lemma collision_step_shape (c1 c2 c3 : Prop) [Decidable c1] [Decidable c2]
    [Decidable c3] (t : ℝ) (res : CollisionResult) (upd : ℝ → CollisionResult) :
    (if c1 then res else if c2 then res else if c3 then res
      else if t > EPSILON ∧ (res.hit = false ∨ t < res.distance) then upd t
      else res) =
      match (if c1 then none else if c2 then none else if c3 then none
        else if t > EPSILON then some t else none : Option ℝ) with
      | none => res
      | some t2 => if res.hit = false ∨ t2 < res.distance then upd t2
          else res := by
  by_cases h1 : c1
  · simp [h1]
  by_cases h2 : c2
  · simp [h1, h2]
  by_cases h3 : c3
  · simp [h1, h2, h3]
  by_cases h4 : t > EPSILON
  · by_cases h5 : res.hit = false ∨ t < res.distance
    · simp [h1, h2, h3, h4, h5]
    · simp [h1, h2, h3, h4, h5]
  · simp [h1, h2, h3, h4]

lemma ray_triangle_step_eq (ray_origin ray_direction : Vector3 ℝ)
    (res : CollisionResult) (tri : Triangle3) :
    ray_triangle_step ray_origin ray_direction res tri =
      match mt_accepted_distance ray_origin ray_direction tri with
      | none => res
      | some t =>
          if res.hit = false ∨ t < res.distance then
            mt_hit_record ray_origin ray_direction tri t
          else res := by
  unfold ray_triangle_step mt_accepted_distance mt_hit_record
  dsimp only
  exact collision_step_shape _ _ _ _ _
    (fun t2 => ⟨true, t2,
      vector3_add ray_origin (vector3_multiply ray_direction t2),
      vector3_normalize (vector3_cross (vector3_subtract tri.2.1 tri.1)
        (vector3_subtract tri.2.2 tri.1))⟩)

/-- What the collision fold computes over a triangle list: `hit` is set
exactly when some triangle is accepted; on a hit, the result is the record
of the first triangle attaining the minimal accepted distance (strictly
smaller than every earlier accepted distance). -/
def collision_result_spec (ray_origin ray_direction : Vector3 ℝ)
    (tris : List Triangle3) (r : CollisionResult) : Prop :=
  (r.hit = false ↔ accepted_distances ray_origin ray_direction tris = []) ∧
  (r.hit = true →
    ∃ (k : ℕ) (tri : Triangle3), tris[k]? = some tri ∧
      mt_accepted_distance ray_origin ray_direction tri = some r.distance ∧
      (∀ t ∈ accepted_distances ray_origin ray_direction tris,
        r.distance ≤ t) ∧
      (∀ (m : ℕ) (tri2 : Triangle3) (t2 : ℝ), m < k → tris[m]? = some tri2 →
        mt_accepted_distance ray_origin ray_direction tri2 = some t2 →
        r.distance < t2) ∧
      r = mt_hit_record ray_origin ray_direction tri r.distance)

lemma foldl_collision_spec (ray_origin ray_direction : Vector3 ℝ)
    (tris : List Triangle3) :
    collision_result_spec ray_origin ray_direction tris
      (tris.foldl (ray_triangle_step ray_origin ray_direction)
        collision_init) := by
  induction tris using List.reverseRecOn with
  | nil =>
      unfold collision_result_spec
      constructor
      · exact ⟨fun _ => rfl, fun _ => rfl⟩
      · intro h
        exact absurd h (by simp [collision_init])
  | append_singleton ys x ih =>
      unfold collision_result_spec at ih ⊢
      rw [List.foldl_append]
      show collision_result_spec ray_origin ray_direction (ys ++ [x])
        (ray_triangle_step ray_origin ray_direction
          (List.foldl (ray_triangle_step ray_origin ray_direction)
            collision_init ys) x)
      set r := List.foldl (ray_triangle_step ray_origin ray_direction)
        collision_init ys with hr
      rw [ray_triangle_step_eq]
      cases hmt : mt_accepted_distance ray_origin ray_direction x with
      | none =>
          dsimp only
          have hacc2 : accepted_distances ray_origin ray_direction (ys ++ [x]) =
              accepted_distances ray_origin ray_direction ys := by
            unfold accepted_distances
            rw [List.filterMap_append]
            simp [List.filterMap_cons, hmt]
          constructor
          · rw [hacc2]; exact ih.1
          · intro hhit
            obtain ⟨k, tri, hk, hmtk, hmin, hfirst, hrec⟩ := ih.2 hhit
            obtain ⟨hklen, _⟩ := List.getElem?_eq_some_iff.mp hk
            refine ⟨k, tri, ?_, hmtk, ?_, ?_, hrec⟩
            · rw [List.getElem?_append, if_pos hklen]; exact hk
            · rw [hacc2]; exact hmin
            · intro m tri2 t2 hmk hm2 hmt2
              rw [List.getElem?_append, if_pos (by omega)] at hm2
              exact hfirst m tri2 t2 hmk hm2 hmt2
      | some t =>
          dsimp only
          have hacc2 : accepted_distances ray_origin ray_direction (ys ++ [x]) =
              accepted_distances ray_origin ray_direction ys ++ [t] := by
            unfold accepted_distances
            rw [List.filterMap_append]
            simp [List.filterMap_cons, hmt]
          by_cases hcond : r.hit = false ∨ t < r.distance
          · rw [if_pos hcond]
            constructor
            · constructor
              · intro hh
                exact absurd hh (by simp [mt_hit_record])
              · intro hemp
                rw [hacc2] at hemp
                exact absurd hemp (by simp)
            · intro _
              refine ⟨ys.length, x, List.getElem?_concat_length ys x, ?_, ?_, ?_, rfl⟩
              · rw [hmt]; rfl
              · rw [hacc2]
                intro t2 ht2
                rcases List.mem_append.mp ht2 with h | h
                · by_cases hhf : r.hit = false
                  · rw [ih.1.mp hhf] at h
                    exact absurd h (List.not_mem_nil t2)
                  · have hr2 : r.hit = true := by
                      revert hhf; cases r.hit <;> simp
                    have hlt : t < r.distance := hcond.resolve_left hhf
                    obtain ⟨_, _, _, _, hmin, _, _⟩ := ih.2 hr2
                    exact le_of_lt (lt_of_lt_of_le hlt (hmin t2 h))
                · rw [List.mem_singleton.mp h]
                  exact le_refl t
              · intro m tri2 t2 hmk hm2 hmt2
                rw [List.getElem?_append, if_pos hmk] at hm2
                have hmem : t2 ∈ accepted_distances ray_origin ray_direction ys := by
                  apply List.mem_filterMap.mpr
                  obtain ⟨hl2, he2⟩ := List.getElem?_eq_some_iff.mp hm2
                  exact ⟨tri2, he2 ▸ List.getElem_mem hl2, hmt2⟩
                show t < t2
                by_cases hhf : r.hit = false
                · rw [ih.1.mp hhf] at hmem
                  exact absurd hmem (List.not_mem_nil t2)
                · have hr2 : r.hit = true := by
                    revert hhf; cases r.hit <;> simp
                  have hlt : t < r.distance := hcond.resolve_left hhf
                  obtain ⟨_, _, _, _, hmin, _, _⟩ := ih.2 hr2
                  exact lt_of_lt_of_le hlt (hmin t2 hmem)
          · rw [if_neg hcond]
            push_neg at hcond
            obtain ⟨hhne, hge⟩ := hcond
            have hr2 : r.hit = true := by
              revert hhne; cases r.hit <;> simp
            constructor
            · constructor
              · intro hh
                rw [hh] at hr2
                exact absurd hr2 (by simp)
              · intro hemp
                rw [hacc2] at hemp
                exact absurd hemp (by simp)
            · intro _
              obtain ⟨k, tri, hk, hmtk, hmin, hfirst, hrec⟩ := ih.2 hr2
              obtain ⟨hklen, _⟩ := List.getElem?_eq_some_iff.mp hk
              refine ⟨k, tri, ?_, hmtk, ?_, ?_, hrec⟩
              · rw [List.getElem?_append, if_pos hklen]; exact hk
              · rw [hacc2]
                intro t2 ht2
                rcases List.mem_append.mp ht2 with h | h
                · exact hmin t2 h
                · rw [List.mem_singleton.mp h]
                  exact hge
              · intro m tri2 t2 hmk hm2 hmt2
                rw [List.getElem?_append, if_pos (by omega)] at hm2
                exact hfirst m tri2 t2 hmk hm2 hmt2

/-- C5: `ray_nurbs_surface_intersection` tessellates the surface at the
fixed resolution `50 × 50`, tests every triangle with the Möller-Trumbore
conditions (skip when `|a| < EPSILON`; reject when `u < 0` or `u > 1`, or
`v < 0` or `u + v > 1`; accept only when `t > EPSILON`), and returns
`hit = false` exactly when no triangle is accepted; on a hit its result is
the record (distance, `origin + t·direction`, triangle normal) of the first
triangle attaining the globally minimal accepted distance, so exact-tie
distances are resolved in favour of the earlier triangle in enumeration
order. -/
theorem C5_ray_intersection_nearest_first_hit
    (ray_origin ray_direction : Vector3 ℝ) (surface : NURBSSurface) :
    ((ray_nurbs_surface_intersection ray_origin ray_direction surface).hit =
        false ↔
      accepted_distances ray_origin ray_direction
        (collision_triangles surface) = []) ∧
    ((ray_nurbs_surface_intersection ray_origin ray_direction surface).hit =
        true →
      ∃ (k : ℕ) (tri : Triangle3), (collision_triangles surface)[k]? = some tri ∧
        mt_accepted_distance ray_origin ray_direction tri =
          some (ray_nurbs_surface_intersection ray_origin ray_direction
            surface).distance ∧
        (∀ t ∈ accepted_distances ray_origin ray_direction
            (collision_triangles surface),
          (ray_nurbs_surface_intersection ray_origin ray_direction
            surface).distance ≤ t) ∧
        (∀ (m : ℕ) (tri2 : Triangle3) (t2 : ℝ), m < k →
          (collision_triangles surface)[m]? = some tri2 →
          mt_accepted_distance ray_origin ray_direction tri2 = some t2 →
          (ray_nurbs_surface_intersection ray_origin ray_direction
            surface).distance < t2) ∧
        ray_nurbs_surface_intersection ray_origin ray_direction surface =
          mt_hit_record ray_origin ray_direction tri
            (ray_nurbs_surface_intersection ray_origin ray_direction
              surface).distance) := by
  have h := foldl_collision_spec ray_origin ray_direction
    (collision_triangles surface)
  unfold collision_result_spec at h
  exact h

end Engine
